import Mathlib

/-!
# Verification of the journiv streak engine and service-layer behavior

Shallow embedding of the journiv journaling backend, covering:

* the writing-streak recomputation engine (the analytics service, modelled
  from the specification since its source is not in the repository snapshot;
  the integration tests in `src/tests/integration/test_streak_recalculation.py`
  pin down the observable behavior),
* the entry-service mutation flows (`create_entry`, `update_entry`,
  `delete_entry` from `src/app/services/entry_service.py`), embedded as the
  sequence of session/analytics actions each performs,
* `EntryService._normalize_limit`,
* `create_throttled_progress_callback` from
  `src/app/utils/import_export/progress_utils.py`,
* the last-admin protection logic in `src/app/services/user_service.py`.

Calendar dates are modelled as integers (day numbers); consecutive calendar
days are consecutive integers.
-/

/-- The per-user streak record persisted by the analytics service
(`current_streak`, `longest_streak`, `last_entry_date`, `streak_start_date`).
Dates are day numbers; `none` models an absent/NULL date. -/
structure StreakRecord where
  current_streak : Nat
  longest_streak : Nat
  last_entry_date : Option Int
  streak_start_date : Option Int
deriving DecidableEq

/-- The zero streak record: no entries analyzed yet. -/
def streakZero : StreakRecord :=
  { current_streak := 0, longest_streak := 0
    last_entry_date := none, streak_start_date := none }

/-- State carried by the single left-to-right scan over the sorted distinct
dates: the previously seen date, the start of the run currently being
extended, that run's length, and the best (longest) run length seen so far. -/
structure ScanState where
  prev : Int
  runStart : Int
  runLen : Nat
  best : Nat
deriving DecidableEq

/-- One step of the scan (spec 4.1 step 4): a run continues when the next
date equals the previous date plus one day; otherwise a new run starts. -/
def scanStep (st : ScanState) (d : Int) : ScanState :=
  if d = st.prev + 1 then
    { prev := d, runStart := st.runStart, runLen := st.runLen + 1
      best := max st.best (st.runLen + 1) }
  else
    { prev := d, runStart := d, runLen := 1, best := max st.best 1 }

/-- Scan the sorted distinct dates once, starting from the first date. -/
def scanRuns (d0 : Int) (rest : List Int) : ScanState :=
  rest.foldl scanStep { prev := d0, runStart := d0, runLen := 1, best := 1 }

/-- The distinct dates of the entry directory, sorted ascending
(spec 4.1 steps 1 and 3). -/
def sortedDates (D : List Int) : List Int :=
  List.insertionSort (· ≤ ·) D.dedup

/-- Modelled from the spec: `recompute(user_id)` of the StreakEngine
(the analytics service is absent from the repository snapshot; only its
callers and its integration tests are present).  Following spec section 4.1:
fetch the distinct entry dates, sort ascending, scan once partitioning into
maximal runs of consecutive days; the run containing the maximum date gives
`current_streak` / `streak_start_date`, the maximum date gives
`last_entry_date`, and `longest_streak` is the longest run length combined
with the previously stored value via `max`.  For the empty date set the
integration test `test_case_d_deleting_all_entries_resets_to_zero`
(src/tests/integration/test_streak_recalculation.py, lines 220-223) asserts
that `longest_streak` is reset to 0 as well, so the empty branch follows the
test rather than the spec sentence that keeps the stored maximum. -/
def recompute (prior : StreakRecord) (D : List Int) : StreakRecord :=
  match sortedDates D with
  | [] => { current_streak := 0, longest_streak := 0
            last_entry_date := none, streak_start_date := none }
  | d0 :: rest =>
      let st := scanRuns d0 rest
      { current_streak := st.runLen
        longest_streak := max st.best prior.longest_streak
        last_entry_date := some st.prev
        streak_start_date := some st.runStart }

/-- Modelled from the spec: the same engine but with the empty-set branch
exactly as the spec's words state it ("`longest_streak` = stored
`longest_streak` (unchanged)").  Kept separate so the spec's sentence can be
compared against the behavior the repository's own test asserts. -/
def recomputeKeepLongest (prior : StreakRecord) (D : List Int) : StreakRecord :=
  match sortedDates D with
  | [] => { current_streak := 0, longest_streak := prior.longest_streak
            last_entry_date := none, streak_start_date := none }
  | d0 :: rest =>
      let st := scanRuns d0 rest
      { current_streak := st.runLen
        longest_streak := max st.best prior.longest_streak
        last_entry_date := some st.prev
        streak_start_date := some st.runStart }

/-- `IsRunL l a k`: in the date set of `l`, the dates `a, a+1, ..., a+k-1`
form a maximal run of consecutive days: all of them are present, `a - 1` is
absent and `a + k` is absent. -/
def IsRunL (l : List Int) (a : Int) (k : Nat) : Prop :=
  1 ≤ k ∧ (∀ i : Nat, i < k → a + (i : Int) ∈ l) ∧ (a - 1) ∉ l ∧ (a + (k : Int)) ∉ l

/-- Invariant of the scan: after processing the whole sorted distinct list
`l`, the state records the maximum date, the maximal run ending at it, and
the longest maximal run length of `l`. -/
structure ScanInv (l : List Int) (st : ScanState) : Prop where
  prev_mem : st.prev ∈ l
  prev_max : ∀ d ∈ l, d ≤ st.prev
  runLen_pos : 1 ≤ st.runLen
  chain : ∀ i : Nat, i < st.runLen → st.prev - (i : Int) ∈ l
  chain_stop : st.prev - (st.runLen : Int) ∉ l
  runStart_eq : st.runStart = st.prev - ((st.runLen : Int) - 1)
  best_ub : ∀ (a : Int) (k : Nat), IsRunL l a k → k ≤ st.best
  best_mem : ∃ a : Int, IsRunL l a st.best

-- basic facts about `sortedDates`

theorem sortedDates_sorted (D : List Int) : (sortedDates D).Sorted (· ≤ ·) :=
  List.sorted_insertionSort _ _

theorem sortedDates_perm (D : List Int) : List.Perm (sortedDates D) D.dedup :=
  List.perm_insertionSort _ _

theorem sortedDates_nodup (D : List Int) : (sortedDates D).Nodup :=
  (sortedDates_perm D).nodup_iff.mpr (List.nodup_dedup D)

theorem sortedDates_mem (D : List Int) (x : Int) : x ∈ sortedDates D ↔ x ∈ D := by
  rw [(sortedDates_perm D).mem_iff, List.mem_dedup]

theorem sortedDates_pairwise_lt (D : List Int) : (sortedDates D).Pairwise (· < ·) := by
  have h1 : (sortedDates D).Pairwise (· ≤ ·) := sortedDates_sorted D
  have h2 : (sortedDates D).Pairwise (· ≠ ·) := sortedDates_nodup D
  exact (h1.and h2).imp fun h => lt_of_le_of_ne h.1 h.2

theorem sortedDates_eq_nil_iff (D : List Int) : sortedDates D = [] ↔ D = [] := by
  constructor
  · intro h
    have hp : List.Perm ([] : List Int) D.dedup := h ▸ sortedDates_perm D
    exact (List.dedup_eq_nil D).mp hp.symm.eq_nil
  · intro h; subst h; rfl

theorem sortedDates_eq_of_toFinset_eq {D1 D2 : List Int}
    (h : D1.toFinset = D2.toFinset) : sortedDates D1 = sortedDates D2 := by
  have hp : List.Perm D1.dedup D2.dedup := List.toFinset_eq_iff_perm_dedup.mp h
  exact List.eq_of_perm_of_sorted
    ((sortedDates_perm D1).trans (hp.trans (sortedDates_perm D2).symm))
    (sortedDates_sorted D1) (sortedDates_sorted D2)

-- helper lemmas about maximal runs

/-- Two maximal chains of consecutive dates ending at the same date have the
same length. -/
theorem chain_len_unique {l : List Int} {e : Int} {k1 k2 : Nat}
    (h1c : ∀ i : Nat, i < k1 → e - (i : Int) ∈ l) (h1s : e - (k1 : Int) ∉ l)
    (h2c : ∀ i : Nat, i < k2 → e - (i : Int) ∈ l) (h2s : e - (k2 : Int) ∉ l) :
    k1 = k2 := by
  rcases Nat.lt_trichotomy k1 k2 with h | h | h
  · exact absurd (h2c k1 h) h1s
  · exact h
  · exact absurd (h1c k2 h) h2s

/-- Reindex a run from its start to a chain descending from its top date. -/
theorem IsRunL.chain_from_top {l : List Int} {a : Int} {k : Nat}
    (h : IsRunL l a k) {e : Int} (he : e = a + (k : Int) - 1) :
    (∀ i : Nat, i < k → e - (i : Int) ∈ l) ∧ e - (k : Int) ∉ l := by
  obtain ⟨hk, hc, hlo, _⟩ := h
  constructor
  · intro i hi
    have hmem := hc (k - 1 - i) (by omega)
    have harith : a + ((k - 1 - i : Nat) : Int) = e - (i : Int) := by
      subst he; omega
    rwa [harith] at hmem
  · have harith : e - (k : Int) = a - 1 := by subst he; omega
    rwa [harith]

/-- A descending chain ending at the maximum date of the set is a maximal
run starting at `e - (k - 1)`. -/
theorem isRunL_of_chain {l : List Int} {e : Int} {k : Nat}
    (hk : 1 ≤ k) (hc : ∀ i : Nat, i < k → e - (i : Int) ∈ l)
    (hs : e - (k : Int) ∉ l) (hmax : ∀ d ∈ l, d ≤ e) :
    IsRunL l (e - ((k : Int) - 1)) k := by
  refine ⟨hk, ?_, ?_, ?_⟩
  · intro i hi
    have hmem := hc (k - 1 - i) (by omega)
    have harith : e - ((k - 1 - i : Nat) : Int) = e - ((k : Int) - 1) + (i : Int) := by
      omega
    rwa [harith] at hmem
  · have harith : e - ((k : Int) - 1) - 1 = e - (k : Int) := by omega
    rwa [harith]
  · intro hmem
    have := hmax _ hmem
    omega

/-- A maximal run of `l` is still a maximal run after appending a strictly
larger date, provided the new date does not extend it. -/
theorem IsRunL.append_right {l : List Int} {a d : Int} {k : Nat}
    (h : IsRunL l a k) (hlt : ∀ x ∈ l, x < d) (hne : a + (k : Int) ≠ d) :
    IsRunL (l ++ [d]) a k := by
  obtain ⟨hk, hc, hlo, hhi⟩ := h
  refine ⟨hk, ?_, ?_, ?_⟩
  · intro i hi
    exact List.mem_append_left _ (hc i hi)
  · intro hmem
    rcases List.mem_append.mp hmem with hmem | hmem
    · exact hlo hmem
    · have ha : a ∈ l := by
        have := hc 0 (by omega)
        simpa using this
      have := hlt a ha
      have : a - 1 = d := List.mem_singleton.mp hmem
      omega
  · intro hmem
    rcases List.mem_append.mp hmem with hmem | hmem
    · exact hhi hmem
    · exact hne (List.mem_singleton.mp hmem)

/-- `IsRunL` only depends on the membership predicate of the list. -/
theorem isRunL_congr {l1 l2 : List Int} (hm : ∀ x : Int, x ∈ l1 ↔ x ∈ l2)
    {a : Int} {k : Nat} : IsRunL l1 a k ↔ IsRunL l2 a k := by
  unfold IsRunL
  constructor
  · rintro ⟨hk, hc, hlo, hhi⟩
    exact ⟨hk, fun i hi => (hm _).mp (hc i hi),
      fun hx => hlo ((hm _).mpr hx), fun hx => hhi ((hm _).mpr hx)⟩
  · rintro ⟨hk, hc, hlo, hhi⟩
    exact ⟨hk, fun i hi => (hm _).mpr (hc i hi),
      fun hx => hlo ((hm _).mp hx), fun hx => hhi ((hm _).mp hx)⟩

/-- Main invariant of the single-pass scan: processing a strictly sorted
date list `d0 :: rest` yields a state describing the maximal run ending at
the maximum date and the longest maximal run length. -/
theorem scanRuns_inv (d0 : Int) (rest : List Int) :
    (d0 :: rest).Pairwise (· < ·) → ScanInv (d0 :: rest) (scanRuns d0 rest) := by
  induction rest using List.reverseRecOn with
  | nil =>
      intro _
      have hpm : ∀ x ∈ [d0], x ≤ d0 := by
        intro x hx
        rw [List.mem_singleton] at hx
        exact le_of_eq hx
      have hch : ∀ i : Nat, i < 1 → d0 - (i : Int) ∈ [d0] := by
        intro i hi
        have h0 : i = 0 := by omega
        subst h0
        simp
      have hcs : d0 - ((1 : Nat) : Int) ∉ [d0] := by
        intro hmem
        rw [List.mem_singleton] at hmem
        omega
      have hrs : d0 = d0 - (((1 : Nat) : Int) - 1) := by omega
      have hub : ∀ (a : Int) (k : Nat), IsRunL [d0] a k → k ≤ 1 := by
        intro a k hrun
        obtain ⟨hk, hc, hlo, hhi⟩ := hrun
        by_contra hgt
        have h0 := hc 0 (by omega)
        have h1 := hc 1 (by omega)
        rw [List.mem_singleton] at h0 h1
        omega
      have hbm : ∃ a : Int, IsRunL [d0] a 1 := by
        refine ⟨d0, le_refl 1, ?_, ?_, ?_⟩
        · intro i hi
          have h0 : i = 0 := by omega
          subst h0
          simp
        · intro hmem
          rw [List.mem_singleton] at hmem
          omega
        · intro hmem
          rw [List.mem_singleton] at hmem
          omega
      exact ⟨List.mem_singleton_self d0, hpm, le_refl 1, hch, hcs, hrs, hub, hbm⟩
  | append_singleton rs d ih =>
      intro hs
      rw [← List.cons_append, List.pairwise_append] at hs
      obtain ⟨hp1, -, hmid⟩ := hs
      have hlt : ∀ x ∈ d0 :: rs, x < d := fun x hx =>
        hmid x hx d (List.mem_singleton_self d)
      have inv := ih hp1
      rw [show scanRuns d0 (rs ++ [d]) = scanStep (scanRuns d0 rs) d from by
        simp [scanRuns, List.foldl_append]]
      rw [← List.cons_append]
      set st := scanRuns d0 rs with hst
      set l := d0 :: rs with hl
      have hprevd : st.prev < d := hlt _ inv.prev_mem
      have hmm : ∀ x : Int, x ∈ l ++ [d] ↔ x ∈ l ∨ x = d := by
        intro x; simp
      have hmax' : ∀ x ∈ l ++ [d], x ≤ d := by
        intro x hx
        rcases (hmm x).mp hx with hx | hx
        · exact le_of_lt (lt_of_le_of_lt (inv.prev_max x hx) hprevd)
        · exact le_of_eq hx
      have hrestrict : ∀ (a : Int) (k : Nat), IsRunL (l ++ [d]) a k →
          a + (k : Int) - 1 ≠ d → IsRunL l a k := by
        intro a k hrun htop
        obtain ⟨hk1, hkc, hklo, hkhi⟩ := hrun
        refine ⟨hk1, ?_, fun hx => hklo ((hmm _).mpr (Or.inl hx)),
          fun hx => hkhi ((hmm _).mpr (Or.inl hx))⟩
        intro i hi
        rcases (hmm _).mp (hkc i hi) with hmem | hmem
        · exact hmem
        · exfalso
          have htopmem := hkc (k - 1) (by omega)
          have hle := hmax' _ htopmem
          omega
      by_cases hd : d = st.prev + 1
      · -- case: the new date extends the current run
        unfold scanStep
        rw [if_pos hd]
        have hchain' : ∀ i : Nat, i < st.runLen + 1 → d - (i : Int) ∈ l ++ [d] := by
          intro i hi
          cases i with
          | zero => simp
          | succ j =>
              have hj := inv.chain j (by omega)
              have harith : d - ((j + 1 : Nat) : Int) = st.prev - (j : Int) := by
                omega
              rw [harith]
              exact List.mem_append_left _ hj
        have hstop' : d - ((st.runLen + 1 : Nat) : Int) ∉ l ++ [d] := by
          intro hmem
          rcases (hmm _).mp hmem with hmem | hmem
          · have harith : d - ((st.runLen + 1 : Nat) : Int) = st.prev - (st.runLen : Int) := by
              omega
            rw [harith] at hmem
            exact inv.chain_stop hmem
          · omega
        have hub' : ∀ (a : Int) (k : Nat), IsRunL (l ++ [d]) a k →
            k ≤ max st.best (st.runLen + 1) := by
          intro a k hrun
          by_cases htop : a + (k : Int) - 1 = d
          · have hch := hrun.chain_from_top (e := d) (by omega)
            have hk : k = st.runLen + 1 := chain_len_unique hch.1 hch.2 hchain' hstop'
            exact hk ▸ Nat.le_max_right st.best (st.runLen + 1)
          · exact le_trans (inv.best_ub a k (hrestrict a k hrun htop))
              (Nat.le_max_left _ _)
        have hext := isRunL_of_chain (k := st.runLen + 1) (by omega) hchain' hstop' hmax'
        have hbm' : ∃ a : Int, IsRunL (l ++ [d]) a (max st.best (st.runLen + 1)) := by
          obtain ⟨a0, hrun0⟩ := inv.best_mem
          rcases le_total st.best (st.runLen + 1) with hcase | hcase
          · rw [Nat.max_eq_right hcase]
            exact ⟨_, hext⟩
          · rw [Nat.max_eq_left hcase]
            refine ⟨a0, hrun0.append_right hlt ?_⟩
            intro habs
            have hch0 := hrun0.chain_from_top (e := st.prev) (by omega)
            have hbest : st.best = st.runLen :=
              chain_len_unique hch0.1 hch0.2 inv.chain inv.chain_stop
            omega
        have hrs' : st.runStart = d - (((st.runLen + 1 : Nat) : Int) - 1) := by
          have h6 := inv.runStart_eq
          omega
        exact ⟨by simp, hmax', Nat.succ_le_succ (Nat.zero_le _), hchain', hstop',
          hrs', hub', hbm'⟩
      · -- case: a gap of at least two days starts a new run
        have hgap : st.prev + 1 < d := by omega
        unfold scanStep
        rw [if_neg hd]
        have hchain' : ∀ i : Nat, i < 1 → d - (i : Int) ∈ l ++ [d] := by
          intro i hi
          have h0 : i = 0 := by omega
          subst h0
          simp
        have hstop' : d - ((1 : Nat) : Int) ∉ l ++ [d] := by
          intro hmem
          rcases (hmm _).mp hmem with hmem | hmem
          · have := inv.prev_max _ hmem
            omega
          · omega
        have hub' : ∀ (a : Int) (k : Nat), IsRunL (l ++ [d]) a k →
            k ≤ max st.best 1 := by
          intro a k hrun
          by_cases htop : a + (k : Int) - 1 = d
          · have hch := hrun.chain_from_top (e := d) (by omega)
            have hk : k = 1 := chain_len_unique hch.1 hch.2 hchain' hstop'
            exact hk ▸ Nat.le_max_right st.best 1
          · exact le_trans (inv.best_ub a k (hrestrict a k hrun htop))
              (Nat.le_max_left _ _)
        have hbm' : ∃ a : Int, IsRunL (l ++ [d]) a (max st.best 1) := by
          obtain ⟨a0, hrun0⟩ := inv.best_mem
          have hb1 : 1 ≤ st.best := hrun0.1
          rw [Nat.max_eq_left hb1]
          refine ⟨a0, hrun0.append_right hlt ?_⟩
          intro habs
          have htopmem := hrun0.2.1 (st.best - 1) (by omega)
          have hle := inv.prev_max _ htopmem
          omega
        have hrs' : d = d - (((1 : Nat) : Int) - 1) := by omega
        exact ⟨by simp, hmax', le_refl 1, hchain', hstop', hrs', hub', hbm'⟩

/-- Unfolding of `recompute` on a date list whose sorted distinct form is
`d0 :: rest`. -/
theorem recompute_eq_scan (prior : StreakRecord) (D : List Int) (d0 : Int)
    (rest : List Int) (h : sortedDates D = d0 :: rest) :
    recompute prior D =
      { current_streak := (scanRuns d0 rest).runLen
        longest_streak := max (scanRuns d0 rest).best prior.longest_streak
        last_entry_date := some (scanRuns d0 rest).prev
        streak_start_date := some (scanRuns d0 rest).runStart } := by
  unfold recompute
  rw [h]

/-- The scan invariant transported to the raw (unsorted, possibly
duplicated) date list `D`. -/
theorem recompute_spec_aux (prior : StreakRecord) (D : List Int) (hD : D ≠ []) :
    ∃ st : ScanState,
      recompute prior D =
        { current_streak := st.runLen
          longest_streak := max st.best prior.longest_streak
          last_entry_date := some st.prev
          streak_start_date := some st.runStart } ∧
      st.prev ∈ D ∧ (∀ d ∈ D, d ≤ st.prev) ∧ 1 ≤ st.runLen ∧
      (∀ i : Nat, i < st.runLen → st.prev - (i : Int) ∈ D) ∧
      st.prev - (st.runLen : Int) ∉ D ∧
      st.runStart = st.prev - ((st.runLen : Int) - 1) ∧
      (∀ (a : Int) (k : Nat), IsRunL D a k → k ≤ st.best) ∧
      (∃ a : Int, IsRunL D a st.best) := by
  obtain ⟨d0, rest, hsd⟩ : ∃ d0 rest, sortedDates D = d0 :: rest := by
    cases hsde : sortedDates D with
    | nil => exact absurd ((sortedDates_eq_nil_iff D).mp hsde) hD
    | cons d0 rest => exact ⟨d0, rest, rfl⟩
  have hmemiff : ∀ x : Int, x ∈ d0 :: rest ↔ x ∈ D := by
    intro x
    rw [← hsd]
    exact sortedDates_mem D x
  have hpl := sortedDates_pairwise_lt D
  rw [hsd] at hpl
  have inv := scanRuns_inv d0 rest hpl
  refine ⟨scanRuns d0 rest, recompute_eq_scan prior D d0 rest hsd,
    (hmemiff _).mp inv.prev_mem, ?_, inv.runLen_pos, ?_, ?_, inv.runStart_eq, ?_, ?_⟩
  · intro d hd
    exact inv.prev_max d ((hmemiff d).mpr hd)
  · intro i hi
    exact (hmemiff _).mp (inv.chain i hi)
  · intro hx
    exact inv.chain_stop ((hmemiff _).mpr hx)
  · intro a k hrun
    exact inv.best_ub a k ((isRunL_congr hmemiff).mpr hrun)
  · obtain ⟨a, ha⟩ := inv.best_mem
    exact ⟨a, (isRunL_congr hmemiff).mp ha⟩

/-- C2: for every non-empty date list `D`, `recompute` partitions the
distinct dates into maximal runs of consecutive days: `last_entry_date` is
`max(D)`; `current_streak` is the length of the maximal run containing
`max(D)` (the chain `M, M-1, ..., M-k+1` lies in `D` and `M-k` does not);
`streak_start_date` is the first date of that run; and `longest_streak`
equals `max` of the longest maximal run length in `D` and the previously
stored `longest_streak`.  The statement holds for arbitrary `M = max(D)`:
the model has no notion of the present day, so the current streak has no
recency expiry. -/
theorem recompute_runs_characterization (prior : StreakRecord) (D : List Int)
    (h : D ≠ []) :
    ∃ (M : Int) (k L : Nat),
      recompute prior D =
        { current_streak := k, longest_streak := max L prior.longest_streak
          last_entry_date := some M
          streak_start_date := some (M - ((k : Int) - 1)) } ∧
      M ∈ D ∧ (∀ d ∈ D, d ≤ M) ∧ 1 ≤ k ∧
      (∀ i : Nat, i < k → M - (i : Int) ∈ D) ∧ (M - (k : Int)) ∉ D ∧
      (∃ a : Int, IsRunL D a L) ∧
      (∀ (a : Int) (j : Nat), IsRunL D a j → j ≤ L) := by
  obtain ⟨st, heq, h1, h2, h3, h4, h5, h6, h7, h8⟩ := recompute_spec_aux prior D h
  refine ⟨st.prev, st.runLen, st.best, ?_, h1, h2, h3, h4, h5, h8, h7⟩
  rw [heq, h6]

/-- Witness for C2 at the concrete input `D = [3, 5, 4, 9]` with a
previously stored `longest_streak` of 2. -/
theorem recompute_runs_characterization_witness :
    ([3, 5, 4, 9] : List Int) ≠ [] ∧
    ∃ (M : Int) (k L : Nat),
      recompute { current_streak := 1, longest_streak := 2
                  last_entry_date := none, streak_start_date := none }
          [3, 5, 4, 9] =
        { current_streak := k, longest_streak := max L 2
          last_entry_date := some M
          streak_start_date := some (M - ((k : Int) - 1)) } ∧
      M ∈ ([3, 5, 4, 9] : List Int) ∧ (∀ d ∈ ([3, 5, 4, 9] : List Int), d ≤ M) ∧
      1 ≤ k ∧
      (∀ i : Nat, i < k → M - (i : Int) ∈ ([3, 5, 4, 9] : List Int)) ∧
      (M - (k : Int)) ∉ ([3, 5, 4, 9] : List Int) ∧
      (∃ a : Int, IsRunL [3, 5, 4, 9] a L) ∧
      (∀ (a : Int) (j : Nat), IsRunL [3, 5, 4, 9] a j → j ≤ L) :=
  ⟨by decide,
    recompute_runs_characterization
      { current_streak := 1, longest_streak := 2
        last_entry_date := none, streak_start_date := none }
      [3, 5, 4, 9] (by decide)⟩

/-- C4: every record produced by a full recomputation satisfies the
StreakRecord invariants: `current_streak = 0` iff `last_entry_date` is
absent iff `streak_start_date` is absent; `current_streak ≤ longest_streak`;
and when `current_streak ≥ 1` the inclusive range from `streak_start_date`
to `last_entry_date` spans exactly `current_streak` days, all of which are
dates in the user's written-date list. -/
theorem recompute_record_invariants (prior : StreakRecord) (D : List Int) :
    ((recompute prior D).current_streak = 0 ↔
      (recompute prior D).last_entry_date = none) ∧
    ((recompute prior D).current_streak = 0 ↔
      (recompute prior D).streak_start_date = none) ∧
    (recompute prior D).current_streak ≤ (recompute prior D).longest_streak ∧
    (1 ≤ (recompute prior D).current_streak →
      ∃ s m : Int, (recompute prior D).streak_start_date = some s ∧
        (recompute prior D).last_entry_date = some m ∧
        m - s + 1 = ((recompute prior D).current_streak : Int) ∧
        ∀ d : Int, s ≤ d → d ≤ m → d ∈ D) := by
  by_cases hD : D = []
  · subst hD
    have h : recompute prior [] =
        { current_streak := 0, longest_streak := 0
          last_entry_date := none, streak_start_date := none } := rfl
    rw [h]
    refine ⟨by simp, by simp, le_refl 0, ?_⟩
    intro hc
    have hc' : (1 : Nat) ≤ 0 := hc
    omega
  · obtain ⟨st, heq, h1, h2, h3, h4, h5, h6, h7, h8⟩ := recompute_spec_aux prior D hD
    rw [heq]
    have hrz : st.runLen ≠ 0 := by omega
    refine ⟨?_, ?_, ?_, ?_⟩
    · show st.runLen = 0 ↔ some st.prev = none
      simp [hrz]
    · show st.runLen = 0 ↔ some st.runStart = none
      simp [hrz]
    · show st.runLen ≤ max st.best prior.longest_streak
      have hlast := isRunL_of_chain h3 h4 h5 h2
      exact le_trans (h7 _ _ hlast) (Nat.le_max_left _ _)
    · intro hc
      refine ⟨st.runStart, st.prev, rfl, rfl, ?_, ?_⟩
      · show st.prev - st.runStart + 1 = (st.runLen : Int)
        omega
      · intro d hsd hdm
        have hi : (st.prev - d).toNat < st.runLen := by omega
        have hmem := h4 _ hi
        have harith : st.prev - (((st.prev - d).toNat : Nat) : Int) = d := by omega
        rwa [harith] at hmem

/-- C7: `recompute` is idempotent; running it a second time on the same
date list, starting from the record the first run produced, yields the very
same record. -/
theorem recompute_idempotent (prior : StreakRecord) (D : List Int) :
    recompute (recompute prior D) D = recompute prior D := by
  cases hsd : sortedDates D with
  | nil =>
      unfold recompute
      rw [hsd]
  | cons d0 rest =>
      have h1 := recompute_eq_scan prior D d0 rest hsd
      have h2 := recompute_eq_scan (recompute prior D) D d0 rest hsd
      rw [h2, h1]
      have hmx : max (scanRuns d0 rest).best
          (max (scanRuns d0 rest).best prior.longest_streak) =
          max (scanRuns d0 rest).best prior.longest_streak := by
        rw [← max_assoc, max_self]
      simp [hmx]

/-- C5: the streak computation depends only on the set of distinct calendar
dates, never on entry multiplicity.  The general part states that any two
entry-date lists with the same date set recompute to the same record.  The
concrete parts replay the scenarios of `test_case_f` and `test_case_g`
(day numbers 21, 22, 23 with 3, 2, 1 entries): deleting one of the two
entries on day 22 leaves the streak record unchanged, while deleting both
removes the date and splits the run, shrinking the current streak to 1. -/
theorem recompute_multiplicity_irrelevant :
    (∀ (prior : StreakRecord) (D1 D2 : List Int),
        D1.toFinset = D2.toFinset → recompute prior D1 = recompute prior D2) ∧
    recompute streakZero [21, 21, 21, 22, 22, 23] =
      { current_streak := 3, longest_streak := 3
        last_entry_date := some 23, streak_start_date := some 21 } ∧
    recompute
        { current_streak := 3, longest_streak := 3
          last_entry_date := some 23, streak_start_date := some 21 }
        [21, 21, 21, 22, 23] =
      { current_streak := 3, longest_streak := 3
        last_entry_date := some 23, streak_start_date := some 21 } ∧
    recompute
        { current_streak := 3, longest_streak := 3
          last_entry_date := some 23, streak_start_date := some 21 }
        [21, 21, 21, 23] =
      { current_streak := 1, longest_streak := 3
        last_entry_date := some 23, streak_start_date := some 23 } := by
  refine ⟨?_, by decide, by decide, by decide⟩
  intro prior D1 D2 h
  unfold recompute
  rw [sortedDates_eq_of_toFinset_eq h]

/-- The analytics payload `test_case_d_deleting_all_entries_resets_to_zero`
asserts after the last entry is deleted
(src/tests/integration/test_streak_recalculation.py, lines 220-223):
`current_streak == 0`, `longest_streak == 0`, `last_entry_date is None`,
`streak_start_date is None`. -/
def caseD_expected : StreakRecord :=
  { current_streak := 0, longest_streak := 0
    last_entry_date := none, streak_start_date := none }

/-- C3 counterexample: replaying test_case_d (entries on days T-2 and T-1,
then both deleted).  After the creations the stored record has
`longest_streak = 2`; the repository's own test asserts that the record
after the deletions is all-zero — in particular `longest_streak = 0` — so
the engine does not keep the previously stored `longest_streak` on an empty
date set, contradicting the claim; the spec-worded variant that keeps it
disagrees with the test's asserted payload. -/
theorem caseD_longest_reset_cx :
    (recompute streakZero [-2, -1]).longest_streak = 2 ∧
    recompute (recompute streakZero [-2, -1]) [] = caseD_expected ∧
    recomputeKeepLongest (recompute streakZero [-2, -1]) [] ≠ caseD_expected := by
  decide

/-- C3 (amended): when the date set becomes empty, `recompute` resets the
whole record to the zero state: `current_streak = 0`, `last_entry_date` and
`streak_start_date` absent, and `longest_streak` reset to 0 as well (the
stored historical maximum is not retained, per test_case_d). -/
theorem recompute_empty_resets_record (prior : StreakRecord) :
    recompute prior [] = caseD_expected := rfl

-- ===== entry service (src/app/services/entry_service.py) =====

/-- Failure modes surfaced by the entry-service operations. -/
inductive EntryErr
  | journalNotFound
  | entryNotFound
  | validationError
  | sqlAlchemyError
deriving DecidableEq

/-- Result of an entry-service mutation: success, or the raised error. -/
inductive EntryResult
  | ok
  | err (e : EntryErr)
deriving DecidableEq

/-- Observable session/analytics actions performed by the entry-service
mutation flows, in program order. -/
inductive Act
  | sessionAdd
  | sessionDeleteRelated
  | sessionDeleteEntry
  | commit
  | rollback
  | refresh
  | recalcJournalEntryCount
  | updateWritingStreak
  | logError
deriving DecidableEq

/-- `EntryService.create_entry` (entry_service.py lines 89-166) as the
sequence of actions it performs and its outcome.  Validation failure aborts
with `JournalNotFoundError`; a commit failure rolls back inside `_commit`
and again in the outer handler, then re-raises.  After a successful commit
the journal-recount hook and the writing-streak hook each run inside a
`try`/`except` that logs and swallows any exception. -/
def createEntryRun (journalFound commitRaises recountRaises streakRaises : Bool) :
    List Act × EntryResult :=
  if journalFound = false then
    ([], .err .journalNotFound)
  else if commitRaises then
    ([.sessionAdd, .commit, .rollback, .logError, .rollback, .logError],
      .err .sqlAlchemyError)
  else
    ([.sessionAdd, .commit, .refresh]
        ++ (if recountRaises then [.recalcJournalEntryCount, .logError]
            else [.recalcJournalEntryCount])
        ++ (if streakRaises then [.updateWritingStreak, .logError]
            else [.updateWritingStreak]),
      .ok)

/-- `EntryService.delete_entry` (entry_service.py lines 307-347) as the
sequence of actions it performs and its outcome: delete related media and
tag links, delete the entry, commit (rolling back and re-raising on
failure), then recalculate the journal entry count with exceptions logged
and swallowed.  No writing-streak action occurs anywhere in the flow. -/
def deleteEntryRun (entryFound commitRaises recountRaises : Bool) :
    List Act × EntryResult :=
  if entryFound = false then
    ([], .err .entryNotFound)
  else if commitRaises then
    ([.sessionDeleteRelated, .sessionDeleteEntry, .commit, .rollback, .logError,
        .rollback, .logError],
      .err .sqlAlchemyError)
  else
    ([.sessionDeleteRelated, .sessionDeleteEntry, .commit]
        ++ (if recountRaises then [.recalcJournalEntryCount, .logError]
            else [.recalcJournalEntryCount]),
      .ok)

/-- `EntryService.update_entry` (entry_service.py lines 215-305) as the
sequence of actions it performs and its outcome.  The booleans
`datetimeChanged`, `dateChanged` and `timezoneChanged` model an update that
touches `entry_datetime_utc`, `entry_date` or `entry_timezone`; they alter
only the entry's stored fields (`_refresh_entry_date`), never the action
trace: the flow validates a requested journal move, updates fields, commits
(rolling back and re-raising on failure), and recalculates the two journal
entry counts only when the journal changed, with exceptions logged and
swallowed.  No writing-streak action occurs anywhere in the flow. -/
def updateEntryRun (entryFound journalChangeRequested targetJournalFound
    targetArchived datetimeChanged dateChanged timezoneChanged
    commitRaises recountRaises : Bool) : List Act × EntryResult :=
  if entryFound = false then
    ([], .err .entryNotFound)
  else if journalChangeRequested && !targetJournalFound then
    ([], .err .journalNotFound)
  else if journalChangeRequested && targetArchived then
    ([], .err .validationError)
  else if commitRaises then
    ([.sessionAdd, .commit, .rollback, .logError, .rollback, .logError],
      .err .sqlAlchemyError)
  else
    ([.sessionAdd, .commit, .refresh]
        ++ (if journalChangeRequested then
              (if recountRaises then [.recalcJournalEntryCount, .logError]
               else [.recalcJournalEntryCount, .recalcJournalEntryCount])
            else []),
      .ok)

/-- C1 counterexample: a successful entry deletion and a successful entry
update that changes all three date-affecting fields perform no
`updateWritingStreak` action, so the streak recomputation is not invoked
when those mutations return. -/
theorem delete_update_no_streak_cx :
    Act.updateWritingStreak ∉ (deleteEntryRun true false false).1 ∧
    Act.updateWritingStreak ∉
      (updateEntryRun true false true false true true true false false).1 := by
  decide

/-- C1 (amended): of the three entry lifecycle mutations, only
`create_entry` invokes the writing-streak recomputation (with its failures
swallowed); `delete_entry` and `update_entry` — including updates that
change `entry_datetime_utc`, `entry_date` or `entry_timezone` — never do,
for any combination of validation and failure outcomes, so the persisted
StreakRecord is not refreshed when those mutations return. -/
theorem streak_recompute_only_after_create :
    (∀ recountRaises streakRaises : Bool,
      Act.updateWritingStreak ∈
        (createEntryRun true false recountRaises streakRaises).1) ∧
    (∀ entryFound commitRaises recountRaises : Bool,
      Act.updateWritingStreak ∉
        (deleteEntryRun entryFound commitRaises recountRaises).1) ∧
    (∀ ef jc tf ta dtc dc tzc cr rr : Bool,
      Act.updateWritingStreak ∉
        (updateEntryRun ef jc tf ta dtc dc tzc cr rr).1) := by
  refine ⟨?_, ?_, ?_⟩
  · intro a b
    cases a <;> cases b <;> decide
  · intro a b c
    cases a <;> cases b <;> cases c <;> decide
  · intro a b c d e f g h i
    cases a <;> cases b <;> cases c <;> cases d <;> cases e <;> cases f <;>
      cases g <;> cases h <;> cases i <;> decide

/-- C6: a failure raised by the writing-streak recomputation inside
`create_entry` never propagates and never rolls back the committed entry:
whatever the streak hook and recount hook do, the successful path commits,
performs no rollback, reaches the streak hook, logs the streak failure if
one occurs, and returns success. -/
theorem create_entry_swallows_streak_failure :
    ∀ recountRaises streakRaises : Bool,
      (createEntryRun true false recountRaises streakRaises).2 = .ok ∧
      Act.commit ∈ (createEntryRun true false recountRaises streakRaises).1 ∧
      Act.rollback ∉ (createEntryRun true false recountRaises streakRaises).1 ∧
      Act.updateWritingStreak ∈
        (createEntryRun true false recountRaises streakRaises).1 ∧
      (streakRaises = true →
        Act.logError ∈ (createEntryRun true false recountRaises streakRaises).1) := by
  intro a b
  cases a <;> cases b <;> decide

-- ===== EntryService._normalize_limit (entry_service.py lines 30-35) =====

/-- Page-limit constants from entry_service.py lines 20-21. -/
def DEFAULT_ENTRY_PAGE_LIMIT : Int := 50

/-- Maximum page size from entry_service.py line 21. -/
def MAX_ENTRY_PAGE_LIMIT : Int := 100

/-- `EntryService._normalize_limit` (entry_service.py lines 30-35): return
the default for non-positive limits, otherwise cap at the maximum. -/
def normalize_limit (limit : Int) : Int :=
  if limit ≤ 0 then DEFAULT_ENTRY_PAGE_LIMIT
  else min limit MAX_ENTRY_PAGE_LIMIT

/-- C8: `_normalize_limit` returns 50 for non-positive input and
`min limit 100` otherwise; the result always lies between 1 and 100, and
equals the input whenever the input already lies in that range. -/
theorem normalize_limit_spec (limit : Int) :
    (limit ≤ 0 → normalize_limit limit = DEFAULT_ENTRY_PAGE_LIMIT) ∧
    (0 < limit → normalize_limit limit = min limit MAX_ENTRY_PAGE_LIMIT) ∧
    1 ≤ normalize_limit limit ∧ normalize_limit limit ≤ 100 ∧
    (1 ≤ limit → limit ≤ 100 → normalize_limit limit = limit) := by
  unfold normalize_limit DEFAULT_ENTRY_PAGE_LIMIT MAX_ENTRY_PAGE_LIMIT
  by_cases h : limit ≤ 0
  · rw [if_pos h]
    refine ⟨fun _ => rfl, fun hc => absurd hc (by omega), by omega, by omega, ?_⟩
    intro h1 _
    omega
  · rw [if_neg h]
    refine ⟨fun hc => absurd hc h, fun _ => rfl, ?_, ?_, ?_⟩
    · omega
    · omega
    · intro h1 h100
      omega

-- ===== create_throttled_progress_callback (progress_utils.py lines 8-53) =====

/-- Closure state of the throttled progress callback: the processed count
and percentage recorded at the last database commit. -/
structure ProgressState where
  last_committed_progress : Nat
  last_committed_percentage : Nat
deriving DecidableEq

/-- Observable effects of one `handle_progress` call: the job counters it
stores, the argument passed to `job.set_progress` (`none` when it is not
called), and whether `db.commit()` ran. -/
structure ProgressEffects where
  processed_items : Nat
  total_items : Nat
  set_progress_arg : Option Nat
  did_commit : Bool
deriving DecidableEq

/-- `handle_progress` from `create_throttled_progress_callback`
(progress_utils.py lines 31-51).  Counts are machine integers that are
non-negative in every call, modelled as `Nat`; the truncating division of
`int((processed / total) * max_progress)` on non-negative operands is
`processed * max_progress / total`.  The throttle comparisons involve
subtractions that may be negative, so they are taken over `Int`. -/
def handle_progress (max_progress commit_interval percentage_threshold : Nat)
    (st : ProgressState) (processed total : Nat) :
    ProgressEffects × ProgressState :=
  if 0 < total then
    let progress_percentage := min max_progress (processed * max_progress / total)
    let should_commit :=
      (commit_interval : Int) ≤ (processed : Int) - (st.last_committed_progress : Int) ∨
      (percentage_threshold : Int) ≤
        (progress_percentage : Int) - (st.last_committed_percentage : Int) ∨
      processed = total
    if should_commit then
      ({ processed_items := processed, total_items := total
         set_progress_arg := some progress_percentage, did_commit := true },
       { last_committed_progress := processed
         last_committed_percentage := progress_percentage })
    else
      ({ processed_items := processed, total_items := total
         set_progress_arg := some progress_percentage, did_commit := false },
       st)
  else
    ({ processed_items := processed, total_items := total
       set_progress_arg := none, did_commit := true },
     st)

/-- C9: the throttled progress callback never divides by zero and never
reports progress above the cap.  When `total > 0` it passes exactly
`min max_progress (processed * max_progress / total)` to `set_progress`,
a value never exceeding `max_progress`; when `total = 0` the division
branch is not taken — `set_progress` is not called — and a commit is
performed. -/
theorem handle_progress_safe (max_progress commit_interval percentage_threshold : Nat)
    (st : ProgressState) (processed total : Nat) :
    (0 < total →
      (handle_progress max_progress commit_interval percentage_threshold
          st processed total).1.set_progress_arg =
        some (min max_progress (processed * max_progress / total)) ∧
      ∀ v : Nat,
        (handle_progress max_progress commit_interval percentage_threshold
            st processed total).1.set_progress_arg = some v → v ≤ max_progress) ∧
    (total = 0 →
      (handle_progress max_progress commit_interval percentage_threshold
          st processed total).1.set_progress_arg = none ∧
      (handle_progress max_progress commit_interval percentage_threshold
          st processed total).1.did_commit = true) := by
  constructor
  · intro ht
    simp only [handle_progress]
    rw [if_pos ht]
    constructor
    · split <;> rfl
    · intro v hv
      split at hv <;>
      · have hv' : min max_progress (processed * max_progress / total) = v :=
          Option.some_injective _ hv
        omega
  · intro ht
    subst ht
    simp only [handle_progress]
    rw [if_neg (by omega)]
    exact ⟨rfl, rfl⟩

-- ===== UserService admin protection (src/app/services/user_service.py) =====

/-- The `UserRole` enum (admin vs regular user). -/
inductive UserRole
  | admin
  | user
deriving DecidableEq

/-- A user row: id, role and name (the fields the admin-update flow can
touch that matter here). -/
structure AppUser where
  id : Nat
  role : UserRole
  name : String
deriving DecidableEq

/-- Outcome of a user-service operation: success, or the raised
exception. -/
inductive UserOutcome
  | ok
  | userNotFound
  | valueError (msg : String)
  | sqlError
deriving DecidableEq

/-- `UserService.get_user_by_id` (user_service.py lines 98-105) over the
user table. -/
def get_user_by_id (db : List AppUser) (uid : Nat) : Option AppUser :=
  db.find? (fun u => u.id == uid)

/-- `UserService.count_admin_users` (user_service.py lines 62-68). -/
def count_admin_users (db : List AppUser) : Nat :=
  (db.filter (fun u => u.role == UserRole.admin)).length

/-- `UserService.can_delete_user` (user_service.py lines 70-81): deleting
an admin is refused when at most one admin exists. -/
def can_delete_user (db : List AppUser) (uid : Nat) : Bool × Option String :=
  match get_user_by_id db uid with
  | none => (false, some "User not found")
  | some u =>
      if u.role == UserRole.admin then
        if count_admin_users db ≤ 1 then
          (false, some "Cannot delete the last admin user. At least one admin must exist.")
        else (true, none)
      else (true, none)

/-- `UserService.can_update_user_role` (user_service.py lines 83-96):
demoting an admin to a non-admin role is refused when at most one admin
exists. -/
def can_update_user_role (db : List AppUser) (uid : Nat) (new_role : UserRole) :
    Bool × Option String :=
  match get_user_by_id db uid with
  | none => (false, some "User not found")
  | some u =>
      if u.role == UserRole.admin && !(new_role == UserRole.admin) then
        if count_admin_users db ≤ 1 then
          (false, some "Cannot demote the last admin user. At least one admin must exist.")
        else (true, none)
      else (true, none)

/-- `UserService.delete_user` (user_service.py lines 195-216): look the
user up, run the admin check unless bypassed (raising `ValueError` before
any session mutation when it refuses), then delete and commit (a commit
failure rolls the session back, leaving the table unchanged).  The returned
table is the session state when the call finishes. -/
def delete_user (db : List AppUser) (uid : Nat) (bypass_admin_check : Bool)
    (commitRaises : Bool) : List AppUser × UserOutcome :=
  match get_user_by_id db uid with
  | none => (db, .userNotFound)
  | some _ =>
      if bypass_admin_check = false ∧ (can_delete_user db uid).1 = false then
        (db, .valueError (((can_delete_user db uid).2).getD ""))
      else if commitRaises then (db, .sqlError)
      else (db.filter (fun u => !(u.id == uid)), .ok)

/-- Fields an `AdminUserUpdate` payload may set (user_service.py lines
456-497; password/email handling does not interact with the role check). -/
structure AdminUserUpdate where
  role : Option UserRole
  name : Option String
deriving DecidableEq

/-- The `setattr` loop of `update_user_as_admin` applied to one user. -/
def apply_admin_update (u : AppUser) (data : AdminUserUpdate) : AppUser :=
  { u with role := data.role.getD u.role, name := data.name.getD u.name }

/-- `UserService.update_user_as_admin` (user_service.py lines 456-497):
look the user up; when the payload changes the role, run
`can_update_user_role` and raise `ValueError` before any field is written
if it refuses; otherwise apply the update and commit (a commit failure
rolls back, leaving the table unchanged). -/
def update_user_as_admin (db : List AppUser) (uid : Nat) (data : AdminUserUpdate)
    (commitRaises : Bool) : List AppUser × UserOutcome :=
  match get_user_by_id db uid with
  | none => (db, .userNotFound)
  | some u =>
      match data.role with
      | some r =>
          if r ≠ u.role ∧ (can_update_user_role db uid r).1 = false then
            (db, .valueError (((can_update_user_role db uid r).2).getD ""))
          else if commitRaises then (db, .sqlError)
          else (db.map (fun v => if v.id == uid then apply_admin_update v data else v), .ok)
      | none =>
          if commitRaises then (db, .sqlError)
          else (db.map (fun v => if v.id == uid then apply_admin_update v data else v), .ok)

/-- C10: when exactly one admin exists, deleting that admin without the
bypass flag and demoting that admin to a non-admin role both raise
`ValueError` with the corresponding message and return the user table
unchanged, so neither operation can remove the last admin. -/
theorem last_admin_protected (db : List AppUser) (uid : Nat) (u : AppUser)
    (r : UserRole) (name2 : Option String)
    (hu : get_user_by_id db uid = some u)
    (hadmin : u.role = UserRole.admin)
    (hone : count_admin_users db = 1)
    (hdemote : r ≠ UserRole.admin) :
    delete_user db uid false false =
      (db, .valueError "Cannot delete the last admin user. At least one admin must exist.") ∧
    update_user_as_admin db uid { role := some r, name := name2 } false =
      (db, .valueError "Cannot demote the last admin user. At least one admin must exist.") := by
  have hcd : can_delete_user db uid =
      (false, some "Cannot delete the last admin user. At least one admin must exist.") := by
    simp [can_delete_user, hu, hadmin, hone]
  have hcu : can_update_user_role db uid r =
      (false, some "Cannot demote the last admin user. At least one admin must exist.") := by
    simp [can_update_user_role, hu, hadmin, hone, hdemote]
  constructor
  · simp [delete_user, hu, hcd]
  · simp [update_user_as_admin, hu, hcu, hadmin, hdemote]

/-- Witness for C10: a concrete two-user table whose only admin is user 1;
deleting or demoting user 1 is refused and the table is unchanged. -/
theorem last_admin_protected_witness :
    get_user_by_id [⟨1, .admin, "alice"⟩, ⟨2, .user, "bob"⟩] 1 =
      some ⟨1, .admin, "alice"⟩ ∧
    count_admin_users [⟨1, .admin, "alice"⟩, ⟨2, .user, "bob"⟩] = 1 ∧
    (delete_user [⟨1, .admin, "alice"⟩, ⟨2, .user, "bob"⟩] 1 false false =
        ([⟨1, .admin, "alice"⟩, ⟨2, .user, "bob"⟩],
          .valueError "Cannot delete the last admin user. At least one admin must exist.") ∧
      update_user_as_admin [⟨1, .admin, "alice"⟩, ⟨2, .user, "bob"⟩] 1
          { role := some .user, name := none } false =
        ([⟨1, .admin, "alice"⟩, ⟨2, .user, "bob"⟩],
          .valueError "Cannot demote the last admin user. At least one admin must exist.")) :=
  ⟨by decide, by decide,
    last_admin_protected [⟨1, .admin, "alice"⟩, ⟨2, .user, "bob"⟩] 1
      ⟨1, .admin, "alice"⟩ .user none (by decide) rfl (by decide) (by decide)⟩
